import Mathlib

/-
Verification of the API-key lifecycle, request-authentication and
rate-limiting core of the saas-metering-platform backend.

The embedding follows the Python sources:
  backend/app/services/api_keys.py  (key generation, hashing, lifecycle)
  backend/app/core/security.py      (request authentication dependency)
  backend/app/core/rate_limit.py    (fixed-window rate limiter)
  backend/app/models/api_key.py     (ApiKey row shape and column defaults)

Strings are modelled as List Char, byte strings as List Nat (each element a
byte value), timestamps as Nat, and the database table of api_keys rows as a
list of records in insertion order together with the next autoincrement id.
-/

namespace SaasMetering

/- SHA-256, the digest used by hashlib.sha256 in services/api_keys.py.
   Words are Nat values reduced mod 2 to the 32 at each arithmetic step. -/

def add32 (a b : Nat) : Nat := (a + b) % 2 ^ 32

def rotr32 (n x : Nat) : Nat := ((x >>> n) ||| (x <<< (32 - n))) % 2 ^ 32

def not32 (x : Nat) : Nat := 2 ^ 32 - 1 - x % 2 ^ 32

def bigSigma0 (x : Nat) : Nat := rotr32 2 x ^^^ rotr32 13 x ^^^ rotr32 22 x

def bigSigma1 (x : Nat) : Nat := rotr32 6 x ^^^ rotr32 11 x ^^^ rotr32 25 x

def smallSigma0 (x : Nat) : Nat := rotr32 7 x ^^^ rotr32 18 x ^^^ (x >>> 3)

def smallSigma1 (x : Nat) : Nat := rotr32 17 x ^^^ rotr32 19 x ^^^ (x >>> 10)

def chFn (x y z : Nat) : Nat := (x &&& y) ^^^ (not32 x &&& z)

def majFn (x y z : Nat) : Nat := (x &&& y) ^^^ (x &&& z) ^^^ (y &&& z)

/-- K256 lists the 64 SHA-256 round constants of FIPS 180-4, in decimal. -/
def K256 : List Nat :=
  [1116352408, 1899447441, 3049323471, 3921009573, 961987163,
   1508970993, 2453635748, 2870763221, 3624381080, 310598401,
   607225278, 1426881987, 1925078388, 2162078206, 2614888103,
   3248222580, 3835390401, 4022224774, 264347078, 604807628,
   770255983, 1249150122, 1555081692, 1996064986, 2554220882,
   2821834349, 2952996808, 3210313671, 3336571891, 3584528711,
   113926993, 338241895, 666307205, 773529912, 1294757372,
   1396182291, 1695183700, 1986661051, 2177026350, 2456956037,
   2730485921, 2820302411, 3259730800, 3345764771, 3516065817,
   3600352804, 4094571909, 275423344, 430227734, 506948616,
   659060556, 883997877, 958139571, 1322822218, 1537002063,
   1747873779, 1955562222, 2024104815, 2227730452, 2361852424,
   2428436474, 2756734187, 3204031479, 3329325298]

structure SHAState where
  a : Nat
  b : Nat
  c : Nat
  d : Nat
  e : Nat
  f : Nat
  g : Nat
  h : Nat
deriving Repr, DecidableEq

/-- initH holds the eight SHA-256 initial hash words of FIPS 180-4, in decimal. -/
def initH : SHAState :=
  ⟨1779033703, 3144134277, 1013904242, 2773480762,
   1359893119, 2600822924, 528734635, 1541459225⟩

def lengthBytes64 (n : Nat) : List Nat :=
  [n >>> 56 % 256, n >>> 48 % 256, n >>> 40 % 256, n >>> 32 % 256,
   n >>> 24 % 256, n >>> 16 % 256, n >>> 8 % 256, n % 256]

def sha256pad (msg : List Nat) : List Nat :=
  let padZeros := (119 - msg.length % 64) % 64
  msg ++ [0x80] ++ List.replicate padZeros 0 ++ lengthBytes64 (8 * msg.length)

def bytesToWords : List Nat → List Nat
  | b0 :: b1 :: b2 :: b3 :: rest => (((b0 * 256 + b1) * 256 + b2) * 256 + b3) :: bytesToWords rest
  | _ => []

def toBlocks : List Nat → List (List Nat)
  | [] => []
  | w :: ws => ((w :: ws).take 16) :: toBlocks ((w :: ws).drop 16)
termination_by l => l.length
decreasing_by simp [List.length_drop]; omega

def extendSchedule : Nat → List Nat → List Nat
  | 0, w => w
  | n + 1, w =>
    let i := w.length
    extendSchedule n (w ++ [add32 (add32 (smallSigma1 (w.getD (i - 2) 0)) (w.getD (i - 7) 0))
                           (add32 (smallSigma0 (w.getD (i - 15) 0)) (w.getD (i - 16) 0))])

def shaRound (st : SHAState) (kw : Nat × Nat) : SHAState :=
  let t1 := add32 st.h (add32 (bigSigma1 st.e) (add32 (chFn st.e st.f st.g) (add32 kw.1 kw.2)))
  let t2 := add32 (bigSigma0 st.a) (majFn st.a st.b st.c)
  ⟨add32 t1 t2, st.a, st.b, st.c, add32 st.d t1, st.e, st.f, st.g⟩

def processBlock (h0 : SHAState) (block : List Nat) : SHAState :=
  let ws := extendSchedule 48 block
  let st := (K256.zip ws).foldl shaRound h0
  ⟨add32 h0.a st.a, add32 h0.b st.b, add32 h0.c st.c, add32 h0.d st.d,
   add32 h0.e st.e, add32 h0.f st.f, add32 h0.g st.g, add32 h0.h st.h⟩

def wordToBytes (w : Nat) : List Nat :=
  [w >>> 24 % 256, w >>> 16 % 256, w >>> 8 % 256, w % 256]

/-- hexChar maps a value below 16 to its lowercase hexadecimal character. -/
def hexChar (n : Nat) : Char := if n < 10 then Char.ofNat (48 + n) else Char.ofNat (87 + n)

def byteToHex (b : Nat) : List Char := [hexChar (b / 16), hexChar (b % 16)]

def sha256bytes (msg : List Nat) : List Nat :=
  let fin := (toBlocks (bytesToWords (sha256pad msg))).foldl processBlock initH
  ([fin.a, fin.b, fin.c, fin.d, fin.e, fin.f, fin.g, fin.h].map wordToBytes).flatten

/-- sha256hex is hashlib.sha256 with .hexdigest: the 64 lowercase hex characters. -/
def sha256hex (msg : List Nat) : List Char :=
  ((sha256bytes msg).map byteToHex).flatten

def utf8Bytes (c : Char) : List Nat :=
  let n := c.toNat
  if n < 0x80 then [n]
  else if n < 0x800 then [0xc0 ||| (n >>> 6), 0x80 ||| (n &&& 0x3f)]
  else if n < 0x10000 then
    [0xe0 ||| (n >>> 12), 0x80 ||| ((n >>> 6) &&& 0x3f), 0x80 ||| (n &&& 0x3f)]
  else
    [0xf0 ||| (n >>> 18), 0x80 ||| ((n >>> 12) &&& 0x3f),
     0x80 ||| ((n >>> 6) &&& 0x3f), 0x80 ||| (n &&& 0x3f)]

/-- encodeUTF8 models str.encode in Python, the UTF-8 bytes of a string. -/
def encodeUTF8 (s : List Char) : List Nat := (s.map utf8Bytes).flatten

/-- isLowerHexChar decides membership in the character class 0-9 and a-f. -/
def isLowerHexChar (c : Char) : Bool :=
  (decide (48 ≤ c.toNat) && decide (c.toNat ≤ 57)) ||
  (decide (97 ≤ c.toNat) && decide (c.toNat ≤ 102))

/- services/api_keys.py : constants and helpers. -/

/-- KEY_PREFIX_TAG is the constant smp_live_ from services/api_keys.py line 22. -/
def KEY_PREFIX_TAG : List Char := "smp_live_".data

/-- hash_key from services/api_keys.py: SHA-256 hex digest of the UTF-8 plaintext. -/
def hash_key (plaintext : List Char) : List Char := sha256hex (encodeUTF8 plaintext)

/-- generate_raw_key embeds the source function with underscore prefix
    generating smp_live_ plus secrets.token_hex(32). The random part produced
    by the secure generator is passed in as an argument of the embedding; the
    callers assume it is 64 lowercase hex characters, which is exactly the
    shape of every possible secrets.token_hex(32) output. -/
def generate_raw_key (randomPart : List Char) : List Char := KEY_PREFIX_TAG ++ randomPart

/- models/api_key.py : the ApiKey row. Timestamps are Nat, nullable columns
   are Option. created_at is filled by the database clock at insert time and
   is passed to the embedding of create_api_key as the now argument. -/

structure ApiKey where
  id : Nat
  org_id : Nat
  name : List Char
  key_prefix : List Char
  key_hash : List Char
  is_active : Bool
  created_at : Nat
  expires_at : Option Nat
  last_used_at : Option Nat
deriving Repr, DecidableEq

/-- KeyStore models the api_keys table: rows in insertion order plus the next
    autoincrement primary key value. -/
structure KeyStore where
  rows : List ApiKey
  nextId : Nat
deriving Repr, DecidableEq

/-- KeyStore.wf captures the primary-key discipline of the table: every stored
    id is below the autoincrement counter and ids are pairwise distinct. -/
@[reducible] def KeyStore.wf (db : KeyStore) : Prop :=
  (∀ r ∈ db.rows, r.id < db.nextId) ∧ (db.rows.map ApiKey.id).Nodup

/-- hashesUnique is the unique index on the key_hash column declared in
    models/api_key.py. -/
@[reducible] def hashesUnique (db : KeyStore) : Prop := (db.rows.map ApiKey.key_hash).Nodup

/-- create_api_key from services/api_keys.py lines 40 to 67. The plaintext is
    generated, the first 12 characters become the displayed prefix, the
    SHA-256 digest becomes the lookup hash, and a fresh row is inserted with
    the is_active column default True and both nullable timestamps unset.
    Returns the pair returned by the source together with the new store. -/
def create_api_key (db : KeyStore) (org_id : Nat) (name randomPart : List Char) (now : Nat) :
    (ApiKey × List Char) × KeyStore :=
  let plaintext := generate_raw_key randomPart
  let hashed := hash_key plaintext
  let api_key : ApiKey :=
    { id := db.nextId
      org_id := org_id
      name := name
      key_prefix := plaintext.take 12
      key_hash := hashed
      is_active := true
      created_at := now
      expires_at := none
      last_used_at := none }
  ((api_key, plaintext), { rows := db.rows ++ [api_key], nextId := db.nextId + 1 })

/-- createdDesc is the ORDER BY created_at DESC comparison of list_api_keys. -/
def createdDesc (a b : ApiKey) : Prop := b.created_at ≤ a.created_at

instance : DecidableRel createdDesc := fun a b => Nat.decLe b.created_at a.created_at

instance : IsTotal ApiKey createdDesc := ⟨fun a b => Nat.le_total b.created_at a.created_at⟩

instance : IsTrans ApiKey createdDesc := ⟨fun _ _ _ h1 h2 => Nat.le_trans h2 h1⟩

/-- list_api_keys from services/api_keys.py lines 70 to 79: select the rows of
    the org and order by created_at descending. The single-column ORDER BY of
    the source is modelled as a stable sort of the rows in table order, which
    is the observable behaviour of the backing engine on this query; the
    source specifies no tie-break of its own. -/
def list_api_keys (db : KeyStore) (org_id : Nat) : List ApiKey :=
  List.insertionSort createdDesc (db.rows.filter (fun r => r.org_id == org_id))

/-- revoke_api_key from services/api_keys.py lines 82 to 99: locate the row by
    id scoped to the org; when absent return None and leave the store as it
    is; when present set is_active to False and persist that one row. -/
def revoke_api_key (db : KeyStore) (org_id key_id : Nat) : Option ApiKey × KeyStore :=
  match db.rows.find? (fun r => r.id == key_id && r.org_id == org_id) with
  | none => (none, db)
  | some k =>
    let k2 := { k with is_active := false }
    (some k2, { db with rows := db.rows.map (fun r => if r.id == k.id then k2 else r) })

/-- expiresBefore is the expiry test of get_key_by_hash: the expires_at column
    is set and is strictly below the current time. -/
def expiresBefore (k : ApiKey) (now : Nat) : Bool :=
  match k.expires_at with
  | none => false
  | some e => decide (e < now)

/-- get_key_by_hash from services/api_keys.py lines 102 to 131: select a row
    with the given hash and is_active True; if none, or if the found row has a
    set expires_at strictly before the current time, return None without
    writing; otherwise touch last_used_at and persist that one row. -/
def get_key_by_hash (db : KeyStore) (key_hash : List Char) (now : Nat) :
    Option ApiKey × KeyStore :=
  match db.rows.find? (fun r => r.key_hash == key_hash && r.is_active) with
  | none => (none, db)
  | some k =>
    if expiresBefore k now then (none, db)
    else
      let k2 := { k with last_used_at := some now }
      (some k2, { db with rows := db.rows.map (fun r => if r.id == k.id then k2 else r) })

/-- AuthOutcome is the observable result of the FastAPI dependency: either the
    resolved ApiKey row, or an HTTPException with status code and detail. -/
inductive AuthOutcome where
  | ok (key : ApiKey)
  | httpError (statusCode : Nat) (detail : String)
deriving Repr, DecidableEq

/-- missingHeaderError is the 401 raised when no credential is presented. -/
def missingHeaderError : AuthOutcome := .httpError 401 "Missing X-API-Key header"

/-- invalidKeyError is the single 401 raised for every presented credential
    that does not resolve to an active, unexpired key. -/
def invalidKeyError : AuthOutcome := .httpError 401 "Invalid or revoked API key"

/-- get_current_api_key from core/security.py lines 74 to 110. The header
    value is None when absent; the Python truthiness test treats the empty
    string like a missing header. Otherwise the presented credential is
    hashed and resolved through get_key_by_hash. -/
def get_current_api_key (raw_key : Option (List Char)) (db : KeyStore) (now : Nat) :
    AuthOutcome × KeyStore :=
  match raw_key with
  | none => (missingHeaderError, db)
  | some k =>
    if k = [] then (missingHeaderError, db)
    else
      match get_key_by_hash db (hash_key k) now with
      | (none, db2) => (invalidKeyError, db2)
      | (some api_key, db2) => (.ok api_key, db2)

/- core/rate_limit.py : fixed-window rate limiter over a Redis counter store. -/

structure RateLimitResult where
  allowed : Bool
  limit : Nat
  remaining : Nat
  reset_at : Nat
deriving Repr, DecidableEq

/-- RedisState models the counter store: a counter value for every string key
    (absent keys count as zero, as INCR treats them) and an optional time to
    live in seconds for every key. -/
structure RedisState where
  counter : String → Nat
  ttl : String → Option Nat

/-- redisKey is the rl:{id}:{window} key format of check_rate_limit. -/
def redisKey (key_id window_start : Nat) : String :=
  "rl:" ++ toString key_id ++ ":" ++ toString window_start

/-- check_rate_limit from core/rate_limit.py lines 31 to 68. The window start
    is the current time truncated to the window size, the counter for the
    window key is atomically incremented, the expiry is set to twice the
    window size exactly when this increment created the counter, and the
    result carries allowed, limit, remaining and reset_at. Python computes
    remaining as max(0, limit - current_count) over signed integers, whose
    value equals the truncated Nat subtraction used here. -/
def check_rate_limit (st : RedisState) (key_id limit window_seconds now : Nat) :
    RateLimitResult × RedisState :=
  let window_start := now - now % window_seconds
  let window_end := window_start + window_seconds
  let rkey := redisKey key_id window_start
  let current_count := st.counter rkey + 1
  let st1 : RedisState :=
    { st with counter := fun k => if k = rkey then current_count else st.counter k }
  let st2 : RedisState :=
    if current_count = 1 then
      { st1 with ttl := fun k => if k = rkey then some (window_seconds * 2) else st1.ttl k }
    else st1
  ({ allowed := decide (current_count ≤ limit)
     limit := limit
     remaining := limit - current_count
     reset_at := window_end }, st2)

/-- iterCheck applies check_rate_limit n times with the same key identity,
    limit, window size and current time, threading the counter store. -/
def iterCheck (st : RedisState) (key_id limit window_seconds now : Nat) : Nat → RedisState
  | 0 => st
  | n + 1 =>
    (check_rate_limit (iterCheck st key_id limit window_seconds now n)
      key_id limit window_seconds now).2

/-- CoreStep relates a key store to any store reachable by one core operation:
    key creation, listing, revocation, or authentication by hash. -/
inductive CoreStep : KeyStore → KeyStore → Prop where
  | create (db : KeyStore) (org_id : Nat) (name randomPart : List Char) (now : Nat) :
      CoreStep db (create_api_key db org_id name randomPart now).2
  | listKeys (db : KeyStore) (org_id : Nat) : CoreStep db db
  | revoke (db : KeyStore) (org_id key_id : Nat) :
      CoreStep db (revoke_api_key db org_id key_id).2
  | authenticate (db : KeyStore) (h : List Char) (now : Nat) :
      CoreStep db (get_key_by_hash db h now).2

/-- CoreSteps is any finite sequence of core operations. -/
def CoreSteps : KeyStore → KeyStore → Prop := Relation.ReflTransGen CoreStep

/-- deadId states that every row carrying a given id is revoked. -/
def deadId (s : KeyStore) (i : Nat) : Prop :=
  ∀ r ∈ s.rows, r.id = i → r.is_active = false

/-- C3Conclusion packages the fixed-window behaviour asserted by claim C3 for
    a given starting counter store, key identity, limit, window and time. -/
def C3Conclusion (st : RedisState) (key_id limit window_seconds now : Nat) : Prop :=
  (∀ st2 : RedisState,
      (check_rate_limit st2 key_id limit window_seconds now).1 =
        { allowed := decide
            (st2.counter (redisKey key_id (now - now % window_seconds)) + 1 ≤ limit)
          limit := limit
          remaining := limit - (st2.counter (redisKey key_id (now - now % window_seconds)) + 1)
          reset_at := (now - now % window_seconds) + window_seconds } ∧
      (check_rate_limit st2 key_id limit window_seconds now).2.counter
          (redisKey key_id (now - now % window_seconds)) =
        st2.counter (redisKey key_id (now - now % window_seconds)) + 1) ∧
  (∀ i, 1 ≤ i → i ≤ limit →
      (check_rate_limit (iterCheck st key_id limit window_seconds now (i - 1))
          key_id limit window_seconds now).1.allowed = true ∧
      (check_rate_limit (iterCheck st key_id limit window_seconds now (i - 1))
          key_id limit window_seconds now).1.remaining = limit - i) ∧
  (check_rate_limit (iterCheck st key_id limit window_seconds now limit)
      key_id limit window_seconds now).1.allowed = false ∧
  (check_rate_limit (iterCheck st key_id limit window_seconds now limit)
      key_id limit window_seconds now).1.remaining = 0

/- Concrete stores, keys and counter states used by witnesses and
   counterexamples. -/

/-- exC3st is the empty counter store. -/
def exC3st : RedisState := ⟨fun _ => 0, fun _ => none⟩

/-- exC1db is an empty key store. -/
def exC1db : KeyStore := ⟨[], 1⟩

/-- exC2key is an active key whose expires_at equals 100. -/
def exC2key : ApiKey :=
  { id := 1, org_id := 1, name := [], key_prefix := [], key_hash := ['h'],
    is_active := true, created_at := 0, expires_at := some 100, last_used_at := none }

/-- exC2db is a store holding only exC2key. -/
def exC2db : KeyStore := ⟨[exC2key], 2⟩

/-- exC2touched is exC2key after a successful authentication at time 100. -/
def exC2touched : ApiKey := { exC2key with last_used_at := some 100 }

/-- exC5k1 is an active key with id 1 created at time 5. -/
def exC5k1 : ApiKey :=
  { id := 1, org_id := 1, name := [], key_prefix := [], key_hash := ['p'],
    is_active := true, created_at := 5, expires_at := none, last_used_at := none }

/-- exC5k2 is an active key with id 2 created at the same time 5. -/
def exC5k2 : ApiKey :=
  { id := 2, org_id := 1, name := [], key_prefix := [], key_hash := ['q'],
    is_active := true, created_at := 5, expires_at := none, last_used_at := none }

/-- exC5db is a store holding exC5k1 then exC5k2 in insertion order. -/
def exC5db : KeyStore := ⟨[exC5k1, exC5k2], 3⟩

/-- exC6key is an active key with id 1 owned by org 1. -/
def exC6key : ApiKey :=
  { id := 1, org_id := 1, name := [], key_prefix := [], key_hash := ['m'],
    is_active := true, created_at := 0, expires_at := none, last_used_at := none }

/-- exC6db is a store holding only exC6key. -/
def exC6db : KeyStore := ⟨[exC6key], 2⟩

/-- exC8key is a revoked key with id 1 owned by org 1. -/
def exC8key : ApiKey :=
  { id := 1, org_id := 1, name := [], key_prefix := [], key_hash := ['r'],
    is_active := false, created_at := 0, expires_at := none, last_used_at := none }

/-- exC8db is a store holding only exC8key. -/
def exC8db : KeyStore := ⟨[exC8key], 2⟩

/-- exC9key is a revoked key with id 1 owned by org 1. -/
def exC9key : ApiKey :=
  { id := 1, org_id := 1, name := [], key_prefix := [], key_hash := ['s'],
    is_active := false, created_at := 0, expires_at := none, last_used_at := none }

/-- exC9db is a store holding only exC9key. -/
def exC9db : KeyStore := ⟨[exC9key], 2⟩

/- Lemmas about the hex digest. -/

lemma hexChar_isLowerHex : ∀ n < 16, isLowerHexChar (hexChar n) = true := by decide

lemma byteToHex_isLowerHex (b : Nat) (hb : b < 256) :
    ∀ c ∈ byteToHex b, isLowerHexChar c = true := by
  intro c hc
  have hdiv : b / 16 < 16 := Nat.div_lt_of_lt_mul (by omega)
  have hmod : b % 16 < 16 := Nat.mod_lt _ (by omega)
  simp only [byteToHex, List.mem_cons, List.mem_singleton, List.not_mem_nil, or_false] at hc
  rcases hc with rfl | rfl
  · exact hexChar_isLowerHex _ hdiv
  · exact hexChar_isLowerHex _ hmod

lemma mem_wordToBytes_lt (w : Nat) : ∀ b ∈ wordToBytes w, b < 256 := by
  intro b hb
  simp only [wordToBytes, List.mem_cons, List.mem_singleton, List.not_mem_nil, or_false] at hb
  rcases hb with rfl | rfl | rfl | rfl <;> exact Nat.mod_lt _ (by omega)

lemma sha256bytes_lt (msg : List Nat) : ∀ b ∈ sha256bytes msg, b < 256 := by
  intro b hb
  simp only [sha256bytes, List.mem_flatten, List.mem_map] at hb
  obtain ⟨l, ⟨w, _, rfl⟩, hbl⟩ := hb
  exact mem_wordToBytes_lt w b hbl

lemma sha256hex_length (msg : List Nat) : (sha256hex msg).length = 64 := rfl

lemma sha256hex_isLowerHex (msg : List Nat) :
    ∀ c ∈ sha256hex msg, isLowerHexChar c = true := by
  intro c hc
  simp only [sha256hex, List.mem_flatten, List.mem_map] at hc
  obtain ⟨l, ⟨b, hb, rfl⟩, hcl⟩ := hc
  exact byteToHex_isLowerHex b (sha256bytes_lt msg b hb) c hcl

lemma hash_key_length (plaintext : List Char) : (hash_key plaintext).length = 64 :=
  sha256hex_length _

lemma hash_key_isLowerHex (plaintext : List Char) :
    ∀ c ∈ hash_key plaintext, isLowerHexChar c = true :=
  sha256hex_isLowerHex _

/- Lemmas about the rate limiter. -/

lemma check_rate_limit_fst (st : RedisState) (key_id limit window_seconds now : Nat) :
    (check_rate_limit st key_id limit window_seconds now).1 =
      { allowed := decide (st.counter (redisKey key_id (now - now % window_seconds)) + 1 ≤ limit)
        limit := limit
        remaining := limit - (st.counter (redisKey key_id (now - now % window_seconds)) + 1)
        reset_at := (now - now % window_seconds) + window_seconds } := rfl

lemma check_rate_limit_counter (st : RedisState) (key_id limit window_seconds now : Nat) :
    (check_rate_limit st key_id limit window_seconds now).2.counter
        (redisKey key_id (now - now % window_seconds)) =
      st.counter (redisKey key_id (now - now % window_seconds)) + 1 := by
  simp only [check_rate_limit]
  split <;> simp

lemma iterCheck_counter (st : RedisState) (key_id limit window_seconds now : Nat) (n : Nat) :
    (iterCheck st key_id limit window_seconds now n).counter
        (redisKey key_id (now - now % window_seconds)) =
      st.counter (redisKey key_id (now - now % window_seconds)) + n := by
  induction n with
  | zero => rfl
  | succ m ih =>
    simp only [iterCheck, check_rate_limit_counter, ih]
    omega

/- Lemmas about the key store. -/

lemma find?_eq_some_of_unique {p : ApiKey → Bool} {rows : List ApiKey} {r : ApiKey}
    (hmem : r ∈ rows) (hp : p r = true)
    (huniq : ∀ x ∈ rows, p x = true → x = r) :
    rows.find? p = some r := by
  rcases hfind : rows.find? p with _ | k
  · rw [List.find?_eq_none] at hfind
    exact absurd hp (hfind r hmem)
  · have hk := List.find?_some hfind
    have hkmem := List.mem_of_find?_eq_some hfind
    rw [huniq k hkmem hk]

/- Claim theorems. -/

/-- C4: create_api_key builds the plaintext as the fixed tag smp_live_ followed
    by the 64 lowercase hex characters of the secure random part, persists a
    new row whose displayed prefix is the first 12 characters of the
    plaintext, whose stored hash is the 64 character lowercase hex SHA-256
    digest of the full plaintext, and whose is_active is true, and returns
    both the stored row and the plaintext. -/
theorem create_api_key_spec (db : KeyStore) (org_id : Nat) (name : List Char) (now : Nat)
    (randomPart : List Char) (hlen : randomPart.length = 64)
    (hhex : ∀ c ∈ randomPart, isLowerHexChar c = true) :
    ∃ row plaintext db2,
      create_api_key db org_id name randomPart now = ((row, plaintext), db2) ∧
      plaintext = KEY_PREFIX_TAG ++ randomPart ∧
      plaintext.length = KEY_PREFIX_TAG.length + 64 ∧
      (∀ c ∈ randomPart, isLowerHexChar c = true) ∧
      row.key_prefix = plaintext.take 12 ∧
      row.key_hash = hash_key plaintext ∧
      row.key_hash.length = 64 ∧
      (∀ c ∈ row.key_hash, isLowerHexChar c = true) ∧
      row.is_active = true ∧
      db2.rows = db.rows ++ [row] := by
  refine ⟨_, _, _, rfl, rfl, ?_, hhex, rfl, rfl, hash_key_length _, hash_key_isLowerHex _,
    rfl, rfl⟩
  simp [generate_raw_key, hlen]

/-- C4 witness: the theorem applied at a concrete random part. -/
theorem create_api_key_spec_witness :
    (List.replicate 64 'a').length = 64 ∧
    (∀ c ∈ List.replicate 64 'a', isLowerHexChar c = true) ∧
    (∃ row plaintext db2,
      create_api_key ⟨[], 1⟩ 7 ['k'] (List.replicate 64 'a') 5 = ((row, plaintext), db2) ∧
      plaintext = KEY_PREFIX_TAG ++ List.replicate 64 'a' ∧
      plaintext.length = KEY_PREFIX_TAG.length + 64 ∧
      (∀ c ∈ List.replicate 64 'a', isLowerHexChar c = true) ∧
      row.key_prefix = plaintext.take 12 ∧
      row.key_hash = hash_key plaintext ∧
      row.key_hash.length = 64 ∧
      (∀ c ∈ row.key_hash, isLowerHexChar c = true) ∧
      row.is_active = true ∧
      db2.rows = (⟨[], 1⟩ : KeyStore).rows ++ [row]) :=
  ⟨by decide, by decide,
    create_api_key_spec ⟨[], 1⟩ 7 ['k'] 5 (List.replicate 64 'a') (by decide) (by decide)⟩

/-- C7: on every call to check_rate_limit, the ttl of the window counter is
    set to exactly twice the window size precisely when the increment created
    the counter, that is when the incremented count equals one; any later
    increment in the same window leaves the ttl untouched. -/
theorem rate_limit_expiry_spec (st : RedisState) (key_id limit window_seconds now : Nat) :
    (check_rate_limit st key_id limit window_seconds now).2.ttl
        (redisKey key_id (now - now % window_seconds)) =
      (if st.counter (redisKey key_id (now - now % window_seconds)) + 1 = 1
       then some (window_seconds * 2)
       else st.ttl (redisKey key_id (now - now % window_seconds))) := by
  simp only [check_rate_limit]
  split <;> simp_all

/-- C10: an X-API-Key header equal to the empty string is treated exactly like
    a missing header: the outcome is the missing-credential 401 for every
    store and time, the store comes back unchanged, the outcome coincides
    with the outcome for an absent header, and it differs from the
    invalid-credential 401. -/
theorem empty_header_is_missing_credential (db : KeyStore) (now : Nat) :
    get_current_api_key (some []) db now = (missingHeaderError, db) ∧
    get_current_api_key (some []) db now = get_current_api_key none db now ∧
    missingHeaderError = AuthOutcome.httpError 401 "Missing X-API-Key header" ∧
    missingHeaderError ≠ invalidKeyError :=
  ⟨rfl, rfl, rfl, by decide⟩

/-- C3: check_rate_limit truncates the current time to the window start,
    increments the window counter to obtain the count, and answers allowed
    when the count is at most the limit, with remaining the truncated
    difference and reset_at the window start plus the window size; starting
    from a counter at zero, each of the first limit calls is allowed with
    remaining decreasing limit minus one down to zero, and the following call
    in the same window is refused with remaining zero. -/
theorem rate_limit_fixed_window_spec (st : RedisState)
    (key_id limit window_seconds now : Nat)
    (hW : 0 < window_seconds) (hL : 1 ≤ limit)
    (h0 : st.counter (redisKey key_id (now - now % window_seconds)) = 0) :
    C3Conclusion st key_id limit window_seconds now := by
  refine ⟨fun st2 => ⟨check_rate_limit_fst st2 key_id limit window_seconds now,
    check_rate_limit_counter st2 key_id limit window_seconds now⟩, ?_, ?_, ?_⟩
  · intro i h1 hiL
    constructor
    · simp only [check_rate_limit_fst, iterCheck_counter, h0, decide_eq_true_eq]
      omega
    · simp only [check_rate_limit_fst, iterCheck_counter, h0]
      omega
  · simp only [check_rate_limit_fst, iterCheck_counter, h0, decide_eq_false_iff_not]
    omega
  · simp only [check_rate_limit_fst, iterCheck_counter, h0]
    omega

/-- C3 witness: the theorem applied at a concrete store, key, limit, window
    and time. -/
theorem rate_limit_fixed_window_spec_witness :
    0 < 60 ∧ 1 ≤ 2 ∧ exC3st.counter (redisKey 1 (130 - 130 % 60)) = 0 ∧
    C3Conclusion exC3st 1 2 60 130 :=
  ⟨by decide, by decide, rfl,
    rate_limit_fixed_window_spec exC3st 1 2 60 130 (by decide) (by decide) rfl⟩

lemma get_key_by_hash_of_find?_none (db : KeyStore) (h : List Char) (now : Nat)
    (hfind : db.rows.find? (fun r => r.key_hash == h && r.is_active) = none) :
    get_key_by_hash db h now = (none, db) := by
  simp [get_key_by_hash, hfind]

lemma get_key_by_hash_of_expired (db : KeyStore) (h : List Char) (now : Nat) (k : ApiKey)
    (hfind : db.rows.find? (fun r => r.key_hash == h && r.is_active) = some k)
    (hexp : expiresBefore k now = true) :
    get_key_by_hash db h now = (none, db) := by
  simp [get_key_by_hash, hfind, hexp]

lemma get_key_by_hash_of_fresh (db : KeyStore) (h : List Char) (now : Nat) (k : ApiKey)
    (hfind : db.rows.find? (fun r => r.key_hash == h && r.is_active) = some k)
    (hexp : expiresBefore k now = false) :
    get_key_by_hash db h now =
      (some { k with last_used_at := some now },
       { db with rows := (db.rows.map
          (fun r => if r.id == k.id then { k with last_used_at := some now } else r)) }) := by
  simp [get_key_by_hash, hfind, hexp]

lemma get_current_api_key_some (c : List Char) (hc : c ≠ []) (db : KeyStore) (now : Nat) :
    get_current_api_key (some c) db now =
      match get_key_by_hash db (hash_key c) now with
      | (none, db2) => (invalidKeyError, db2)
      | (some k, db2) => (AuthOutcome.ok k, db2) := by
  simp [get_current_api_key, hc]

/-- C1: with a presented credential, authentication succeeds exactly when the
    store holds a key whose stored hash is the SHA-256 digest of the
    credential, with is_active true and not expired at the current time; every
    other presented credential, whether the digest never existed, the key was
    revoked, or the key expired, produces the one invalid-credential 401,
    identical across those cases. -/
theorem authenticate_iff_active_unexpired (c : List Char) (hc : c ≠ [])
    (db : KeyStore) (now : Nat) (hu : hashesUnique db) :
    ((∃ r ∈ db.rows, r.key_hash = hash_key c ∧ r.is_active = true ∧
        expiresBefore r now = false) ↔
      (∃ k, (get_current_api_key (some c) db now).1 = AuthOutcome.ok k)) ∧
    ((¬ ∃ r ∈ db.rows, r.key_hash = hash_key c ∧ r.is_active = true ∧
        expiresBefore r now = false) →
      (get_current_api_key (some c) db now).1 = invalidKeyError) := by
  rw [get_current_api_key_some c hc]
  rcases hfind : db.rows.find? (fun r => r.key_hash == hash_key c && r.is_active)
      with _ | k
  · have hno : ∀ x ∈ db.rows, ¬(x.key_hash == hash_key c && x.is_active) = true := by
      rw [← List.find?_eq_none]
      exact hfind
    rw [get_key_by_hash_of_find?_none db _ now hfind]
    constructor
    · constructor
      · rintro ⟨r, hr, hh, ha, -⟩
        exact absurd (by simp [hh, ha]) (hno r hr)
      · rintro ⟨k, hk⟩
        simp [invalidKeyError] at hk
    · intro
      rfl
  · have hk := List.find?_some hfind
    have hkmem := List.mem_of_find?_eq_some hfind
    simp only [Bool.and_eq_true, beq_iff_eq] at hk
    rcases hexp : expiresBefore k now with _ | _
    · rw [get_key_by_hash_of_fresh db _ now k hfind hexp]
      constructor
      · constructor
        · intro
          exact ⟨_, rfl⟩
        · intro
          exact ⟨k, hkmem, hk.1, hk.2, hexp⟩
      · intro hnone
        exact absurd ⟨k, hkmem, hk.1, hk.2, hexp⟩ hnone
    · rw [get_key_by_hash_of_expired db _ now k hfind hexp]
      constructor
      · constructor
        · rintro ⟨r, hr, hh, ha, hf⟩
          have : r = k := List.inj_on_of_nodup_map hu hr hkmem (by rw [hh, hk.1])
          rw [this] at hf
          rw [hf] at hexp
          cases hexp
        · rintro ⟨k2, hk2⟩
          simp [invalidKeyError] at hk2
      · intro
        rfl

/-- C1 witness: the theorem applied to a concrete nonempty credential and a
    concrete store with pairwise distinct hashes. -/
theorem authenticate_iff_active_unexpired_witness :
    ['a'] ≠ ([] : List Char) ∧ hashesUnique exC1db ∧
    (((∃ r ∈ exC1db.rows, r.key_hash = hash_key ['a'] ∧ r.is_active = true ∧
        expiresBefore r 9 = false) ↔
      (∃ k, (get_current_api_key (some ['a']) exC1db 9).1 = AuthOutcome.ok k)) ∧
    ((¬ ∃ r ∈ exC1db.rows, r.key_hash = hash_key ['a'] ∧ r.is_active = true ∧
        expiresBefore r 9 = false) →
      (get_current_api_key (some ['a']) exC1db 9).1 = invalidKeyError)) :=
  ⟨by decide, by decide,
    authenticate_iff_active_unexpired ['a'] (by decide) exC1db 9 (by decide)⟩

/-- C2 counterexample: exC2key is active, matched by its hash, and its
    expires_at of 100 is at (hence at or before) the current time 100, yet
    authentication succeeds and returns the key, so the claim that any key
    whose expires_at is at or before the current time fails authentication is
    false on the code. -/
theorem expiry_boundary_counterexample :
    exC2key.expires_at = some 100 ∧ exC2key.is_active = true ∧
    exC2key ∈ exC2db.rows ∧ (100 : Nat) ≤ 100 ∧
    (get_key_by_hash exC2db exC2key.key_hash 100).1 = some exC2touched := by
  refine ⟨rfl, rfl, by decide, by decide, by decide⟩

/-- C2 amended: a key matched by hash with is_active true and a set expires_at
    fails authentication exactly when its expires_at is strictly before the
    current time; at a time equal to expires_at the key still authenticates,
    so it authenticates exactly when expires_at is at or after now. -/
theorem expiry_boundary_spec (db : KeyStore) (now : Nat) (r : ApiKey) (e : Nat)
    (hu : hashesUnique db) (hmem : r ∈ db.rows) (hact : r.is_active = true)
    (hexp : r.expires_at = some e) :
    ((get_key_by_hash db r.key_hash now).1 = none ↔ e < now) ∧
    ((get_key_by_hash db r.key_hash now).1 ≠ none ↔ now ≤ e) := by
  have hfind : db.rows.find? (fun x => x.key_hash == r.key_hash && x.is_active) = some r := by
    refine find?_eq_some_of_unique hmem (by simp [hact]) ?_
    intro x hx hpx
    simp only [Bool.and_eq_true, beq_iff_eq] at hpx
    exact List.inj_on_of_nodup_map hu hx hmem hpx.1
  have hexpval : expiresBefore r now = decide (e < now) := by
    simp [expiresBefore, hexp]
  by_cases hlt : e < now
  · rw [get_key_by_hash_of_expired db _ now r hfind (by simp [hexpval, hlt])]
    refine ⟨?_, ?_⟩ <;> simp [hlt] <;> omega
  · rw [get_key_by_hash_of_fresh db _ now r hfind (by simp [hexpval, hlt])]
    refine ⟨?_, ?_⟩ <;> simp [hlt] <;> omega

/-- C2 witness: the amended theorem applied at the boundary time itself. -/
theorem expiry_boundary_spec_witness :
    hashesUnique exC2db ∧ exC2key ∈ exC2db.rows ∧ exC2key.is_active = true ∧
    exC2key.expires_at = some 100 ∧
    (((get_key_by_hash exC2db exC2key.key_hash 100).1 = none ↔ 100 < 100) ∧
     ((get_key_by_hash exC2db exC2key.key_hash 100).1 ≠ none ↔ 100 ≤ 100)) :=
  ⟨by decide, by decide, rfl, rfl,
    expiry_boundary_spec exC2db 100 exC2key 100 (by decide) (by decide) rfl rfl⟩

/-- C5 counterexample: two keys of the same org share the creation time 5 and
    have ids 1 and 2; list_api_keys returns them with id 1 first, that is in
    ascending id order on the tie, not the descending id order the claim
    asserts. -/
theorem list_tie_break_counterexample :
    exC5k1.created_at = exC5k2.created_at ∧ exC5k1.id < exC5k2.id ∧
    exC5k1.org_id = 1 ∧ exC5k2.org_id = 1 ∧
    list_api_keys exC5db 1 = [exC5k1, exC5k2] ∧
    list_api_keys exC5db 1 ≠ [exC5k2, exC5k1] := by
  refine ⟨rfl, by decide, rfl, rfl, by decide, by decide⟩

/-- C5 amended: list_api_keys returns exactly the keys of the org, active and
    revoked alike, ordered by creation time descending; the code gives no tie
    break on id, and equal creation times come back in table order. -/
theorem list_api_keys_spec (db : KeyStore) (org_id : Nat) :
    (list_api_keys db org_id).Perm (db.rows.filter (fun r => r.org_id == org_id)) ∧
    List.Sorted createdDesc (list_api_keys db org_id) :=
  ⟨List.perm_insertionSort _ _, List.sorted_insertionSort _ _⟩

/-- C6: when no key with the given id belongs to the given org, either because
    the id does not exist or the key is owned by another org, revoke answers
    the not-found signal None and returns the store unchanged, every row
    included. -/
theorem revoke_not_found_spec (db : KeyStore) (org_id key_id : Nat)
    (habsent : ∀ r ∈ db.rows, ¬(r.id = key_id ∧ r.org_id = org_id)) :
    revoke_api_key db org_id key_id = (none, db) := by
  have hfind : db.rows.find? (fun r => r.id == key_id && r.org_id == org_id) = none := by
    rw [List.find?_eq_none]
    intro x hx
    simp only [Bool.and_eq_true, beq_iff_eq]
    exact fun h => habsent x hx h
  simp [revoke_api_key, hfind]

/-- C6 witness: revoking id 2 in a store owning only id 1 changes nothing. -/
theorem revoke_not_found_spec_witness :
    (∀ r ∈ exC6db.rows, ¬(r.id = 2 ∧ r.org_id = 1)) ∧
    revoke_api_key exC6db 1 2 = (none, exC6db) :=
  ⟨by decide, revoke_not_found_spec exC6db 1 2 (by decide)⟩

/-- C9: revoking an already revoked key owned by the org succeeds, returning
    the record rather than the not-found signal, and both the returned record
    and the whole store are exactly as before: is_active stays false and no
    other field changes. -/
theorem revoke_idempotent_spec (db : KeyStore) (org_id key_id : Nat) (r : ApiKey)
    (hid : (db.rows.map ApiKey.id).Nodup) (hmem : r ∈ db.rows)
    (hkid : r.id = key_id) (horg : r.org_id = org_id) (hrev : r.is_active = false) :
    revoke_api_key db org_id key_id = (some r, db) := by
  have hfind : db.rows.find? (fun x => x.id == key_id && x.org_id == org_id) = some r := by
    refine find?_eq_some_of_unique hmem (by simp [hkid, horg]) ?_
    intro x hx hpx
    simp only [Bool.and_eq_true, beq_iff_eq] at hpx
    exact List.inj_on_of_nodup_map hid hx hmem (by rw [hpx.1, hkid])
  have hk2 : ({ r with is_active := false } : ApiKey) = r := by
    cases r
    simp_all
  have hmap : db.rows.map (fun x => if x.id == r.id then r else x) = db.rows := by
    have hpt : ∀ x ∈ db.rows, (if x.id == r.id then r else x) = x := by
      intro x hx
      by_cases hxr : (x.id == r.id) = true
      · have : x = r := List.inj_on_of_nodup_map hid hx hmem (by simpa using hxr)
        simp [this]
      · simp [hxr]
    calc db.rows.map (fun x => if x.id == r.id then r else x)
        = db.rows.map id := List.map_congr_left hpt
      _ = db.rows := List.map_id _
  obtain ⟨rows, nid⟩ := db
  simp only [revoke_api_key, hfind, hk2]
  simp only at hmap
  rw [hmap]

/-- C9 witness: revoking the already revoked key exC9key a second time. -/
theorem revoke_idempotent_spec_witness :
    (exC9db.rows.map ApiKey.id).Nodup ∧ exC9key ∈ exC9db.rows ∧
    exC9key.id = 1 ∧ exC9key.org_id = 1 ∧ exC9key.is_active = false ∧
    revoke_api_key exC9db 1 1 = (some exC9key, exC9db) :=
  ⟨by decide, by decide, rfl, rfl, rfl,
    revoke_idempotent_spec exC9db 1 1 exC9key (by decide) (by decide) rfl rfl rfl⟩

lemma update_preserves (rows : List ApiKey) (nid : Nat) (k2 : ApiKey) (j i : Nat)
    (hk2 : k2.id = j)
    (hb : ∀ r ∈ rows, r.id < nid) (hnd : (rows.map ApiKey.id).Nodup)
    (hdead : ∀ r ∈ rows, r.id = i → r.is_active = false)
    (hrepl : j = i → k2.is_active = false) :
    (∀ r ∈ rows.map (fun r => if r.id == j then k2 else r), r.id < nid) ∧
    ((rows.map (fun r => if r.id == j then k2 else r)).map ApiKey.id = rows.map ApiKey.id) ∧
    (∀ r ∈ rows.map (fun r => if r.id == j then k2 else r), r.id = i → r.is_active = false) := by
  have hpt : ∀ r ∈ rows, ((if r.id == j then k2 else r) : ApiKey).id = r.id := by
    intro r hr
    by_cases hrj : (r.id == j) = true
    · rw [if_pos hrj, hk2, beq_iff_eq] at *
      rw [hrj]
    · rw [if_neg (by simp_all)]
  refine ⟨?_, ?_, ?_⟩
  · intro r2 hr2
    obtain ⟨r0, hr0, rfl⟩ := List.mem_map.1 hr2
    rw [hpt r0 hr0]
    exact hb r0 hr0
  · rw [List.map_map]
    exact List.map_congr_left (fun a ha => hpt a ha)
  · intro r2 hr2 hi2
    obtain ⟨r0, hr0, rfl⟩ := List.mem_map.1 hr2
    by_cases hrj : (r0.id == j) = true
    · rw [if_pos hrj] at hi2 ⊢
      exact hrepl (by rw [← hk2, hi2])
    · rw [if_neg (by simp_all)] at hi2 ⊢
      exact hdead r0 hr0 hi2

lemma core_step_preserves (s s2 : KeyStore) (i : Nat) (hstep : CoreStep s s2)
    (hwf : s.wf) (hdead : deadId s i) (hi : i < s.nextId) :
    s2.wf ∧ deadId s2 i ∧ i < s2.nextId := by
  obtain ⟨hb, hnd⟩ := hwf
  cases hstep with
  | create org_id name randomPart now =>
    refine ⟨⟨?_, ?_⟩, ?_, ?_⟩
    · intro r hr
      simp only [create_api_key, List.mem_append, List.mem_singleton] at hr
      rcases hr with hr | rfl
      · have := hb r hr
        simp only [create_api_key]
        omega
      · simp [create_api_key]
    · simp only [create_api_key, List.map_append, List.map_cons, List.map_nil]
      rw [List.nodup_append]
      refine ⟨hnd, List.nodup_singleton _, ?_⟩
      intro a ha hmem1
      simp only [List.mem_map] at ha
      obtain ⟨r0, hr0, rfl⟩ := ha
      have := hb r0 hr0
      simp only [List.mem_singleton] at hmem1
      omega
    · intro r hr hri
      simp only [create_api_key, List.mem_append, List.mem_singleton] at hr
      rcases hr with hr | rfl
      · exact hdead r hr hri
      · simp only [create_api_key] at hri
        omega
    · simp only [create_api_key]
      omega
  | listKeys org_id => exact ⟨⟨hb, hnd⟩, hdead, hi⟩
  | revoke org_id key_id =>
    rcases hfind : s.rows.find? (fun r => r.id == key_id && r.org_id == org_id) with _ | k
    · simp only [revoke_api_key, hfind]
      exact ⟨⟨hb, hnd⟩, hdead, hi⟩
    · simp only [revoke_api_key, hfind]
      have h3 := update_preserves s.rows s.nextId { k with is_active := false } k.id i rfl
        hb hnd hdead (fun _ => rfl)
      exact ⟨⟨h3.1, by rw [h3.2.1]; exact hnd⟩, h3.2.2, hi⟩
  | authenticate h now =>
    rcases hfind : s.rows.find? (fun r => r.key_hash == h && r.is_active) with _ | k
    · simp only [get_key_by_hash, hfind]
      exact ⟨⟨hb, hnd⟩, hdead, hi⟩
    · rcases hexp : expiresBefore k now with _ | _
      · simp only [get_key_by_hash, hfind, hexp, Bool.false_eq_true, if_false]
        have hkmem := List.mem_of_find?_eq_some hfind
        have h3 := update_preserves s.rows s.nextId { k with last_used_at := some now }
          k.id i rfl hb hnd hdead (fun hki => hdead k hkmem hki)
        exact ⟨⟨h3.1, by rw [h3.2.1]; exact hnd⟩, h3.2.2, hi⟩
      · simp only [get_key_by_hash, hfind, hexp, if_true]
        exact ⟨⟨hb, hnd⟩, hdead, hi⟩

/-- C8: across any sequence of core operations, creation, listing, revocation
    and authentication by hash, a key that is revoked stays revoked: every
    later row carrying its id still has is_active false. -/
theorem revoked_stays_revoked (db db2 : KeyStore) (hwf : db.wf)
    (hsteps : CoreSteps db db2) (r : ApiKey) (hr : r ∈ db.rows)
    (hinact : r.is_active = false) :
    ∀ r2 ∈ db2.rows, r2.id = r.id → r2.is_active = false := by
  have hdead : deadId db r.id := by
    intro x hx hxid
    have : x = r := List.inj_on_of_nodup_map hwf.2 hx hr (by rw [hxid])
    rw [this]
    exact hinact
  have hi : r.id < db.nextId := hwf.1 r hr
  have hsteps2 : Relation.ReflTransGen CoreStep db db2 := hsteps
  clear hsteps
  have main : db2.wf ∧ deadId db2 r.id ∧ r.id < db2.nextId := by
    induction hsteps2 with
    | refl => exact ⟨hwf, hdead, hi⟩
    | tail hab hbc ih => exact core_step_preserves _ _ _ hbc ih.1 ih.2.1 ih.2.2
  exact main.2.1

/-- C8 witness: one revocation step applied to a store holding the revoked
    key exC8key. -/
theorem revoked_stays_revoked_witness :
    exC8db.wf ∧ CoreSteps exC8db (revoke_api_key exC8db 1 1).2 ∧
    exC8key ∈ exC8db.rows ∧ exC8key.is_active = false ∧
    (∀ r2 ∈ (revoke_api_key exC8db 1 1).2.rows, r2.id = exC8key.id →
      r2.is_active = false) :=
  ⟨by decide, Relation.ReflTransGen.single (CoreStep.revoke exC8db 1 1), by decide, rfl,
    revoked_stays_revoked exC8db (revoke_api_key exC8db 1 1).2 (by decide)
      (Relation.ReflTransGen.single (CoreStep.revoke exC8db 1 1)) exC8key (by decide) rfl⟩

end SaasMetering
